import Mathlib

/-!
Verification of the CS01 repository-initialization subsystem.

The development shallowly embeds the four components of the Rust core:
the ConfigSerializer (src/modules/config.rs), the RepoLocator and
TreeWriter (src/modules/files.rs), the TreeBuilder
(src/modules/repo_structure.rs) and the init command
(src/commands/init.rs).  The filesystem is modelled as a partial map
from paths (lists of name segments) to entries; a file entry carries
an optional content, `none` standing for a file whose read fails.
-/

namespace CS01

/-- Embedding of the subset of `serde_json::Value` used by the code.
Objects are association lists kept in insertion order, numbers are
integers (the only numbers the code ever builds). -/
inductive Value where
  | null : Value
  | bool : Bool → Value
  | num : Int → Value
  | str : String → Value
  | arr : List Value → Value
  | obj : List (String × Value) → Value

/-- Lower-case hexadecimal digit, used by the JSON escaping of control
characters. -/
def hexDigit (n : Nat) : String :=
  String.singleton (Char.ofNat (if n < 10 then 48 + n else 87 + n))

/-- Escaping of a single character as performed by `serde_json` when it
renders a string. -/
def jsonEscapeChar (c : Char) : String :=
  if c.toNat == 34 then "\\\""
  else if c.toNat == 92 then "\\\\"
  else if c.toNat == 10 then "\\n"
  else if c.toNat == 13 then "\\r"
  else if c.toNat == 9 then "\\t"
  else if c.toNat < 32 then "\\u00" ++ hexDigit (c.toNat / 16) ++ hexDigit (c.toNat % 16)
  else String.singleton c

/-- JSON string-body escaping. -/
def jsonEscape (s : String) : String :=
  String.join (s.toList.map jsonEscapeChar)

mutual

/-- Compact JSON rendering, the embedding of `serde_json::to_string` /
`Value::to_string` (both produce the same compact text). -/
def jsonRender : Value → String
  | .null => "null"
  | .bool b => cond b "true" "false"
  | .num n => toString n
  | .str s => "\"" ++ jsonEscape s ++ "\""
  | .arr xs => "[" ++ jsonRenderSeq xs ++ "]"
  | .obj fs => "\x7b" ++ jsonRenderFieldsSeq fs ++ "\x7d"

/-- Comma-separated rendering of a JSON array body. -/
def jsonRenderSeq : List Value → String
  | [] => ""
  | [x] => jsonRender x
  | x :: y :: rest => jsonRender x ++ "," ++ jsonRenderSeq (y :: rest)

/-- Comma-separated rendering of a JSON object body. -/
def jsonRenderFieldsSeq : List (String × Value) → String
  | [] => ""
  | [(k, v)] => "\"" ++ jsonEscape k ++ "\":" ++ jsonRender v
  | (k, v) :: y :: rest =>
      "\"" ++ jsonEscape k ++ "\":" ++ jsonRender v ++ "," ++ jsonRenderFieldsSeq (y :: rest)

end

/-- Rendering of one setting value inside `obj_to_str`
(src/modules/config.rs lines 68-74): objects are rendered as compact
JSON, strings verbatim and unquoted, every other scalar through its
JSON textual form. -/
def renderSettingValue (v : Value) : String :=
  match v with
  | .obj _ => jsonRender v
  | .str s => s
  | _ => jsonRender v

/-- The `  key = value` lines of one subsection, in container order
(src/modules/config.rs lines 63-77). -/
def settingsLines (settings : List (String × Value)) : String :=
  match settings with
  | [] => ""
  | (k, v) :: rest => "  " ++ k ++ " = " ++ renderSettingValue v ++ "\n" ++ settingsLines rest

/-- Header plus settings lines of one `(section, subsection)` pair
(src/modules/config.rs lines 52-77). -/
def subsectionText (sectionName subName : String) (settingsVal : Value) : Except String String :=
  match settingsVal with
  | .obj settings =>
      let header :=
        if subName.isEmpty then "[" ++ sectionName ++ "]\n"
        else "[" ++ sectionName ++ " \"" ++ subName ++ "\"]\n"
      .ok (header ++ settingsLines settings)
  | _ => .error ("Invalid settings for [" ++ sectionName ++ "]: Must be an object.")

/-- Sequential accumulation of rendered pieces, short-circuiting on the
first error exactly as the Rust loops do. -/
def concatManyE (f : α → Except String String) : List α → String → Except String String
  | [], acc => .ok acc
  | x :: rest, acc =>
      match f x with
      | .error e => .error e
      | .ok t => concatManyE f rest (acc ++ t)

/-- Text of one section: its value must be an object of subsections,
which are rendered in container order (src/modules/config.rs lines
32-78). -/
def sectionText (sectionName : String) (sectionVal : Value) : Except String String :=
  match sectionVal with
  | .obj subsections =>
      concatManyE (fun kv => subsectionText sectionName kv.1 kv.2) subsections ""
  | _ => .error ("Invalid section " ++ sectionName ++ ": Must contain subsection objects.")

/-- Embedding of `obj_to_str` (src/modules/config.rs lines 17-82): the
top level must be a non-empty object; sections and subsections are
emitted in the order of the container. -/
def obj_to_str (config_obj : Value) : Except String String :=
  match config_obj with
  | .obj obj =>
      if obj.isEmpty then .error "Invalid configObj: Must be a non-empty object."
      else concatManyE (fun kv => sectionText kv.1 kv.2) obj ""
  | _ => .error "Invalid configObj: Must be a non-empty object."

/-- Recognizer for object values. -/
def Value.isObj : Value → Bool
  | .obj _ => true
  | _ => false

/-- Validity condition written from the spec (section 4.4): the top
level is an object, it is non-empty, every section value is an object,
and every subsection value is an object. -/
def spec_valid_config (v : Value) : Bool :=
  match v with
  | .obj sections =>
      !sections.isEmpty &&
        sections.all (fun kv =>
          match kv.2 with
          | .obj subs => subs.all (fun skv => skv.2.isObj)
          | _ => false)
  | _ => false

/-- A path is a list of name segments measured from the filesystem
root; `p.dropLast` is the parent directory, mirroring `PathBuf::pop`. -/
abbrev Path := List String

/-- A filesystem entry: a regular file whose content reads back as
`some text` (`none` models a file whose `read_to_string` fails), or a
directory. -/
inductive Entry where
  | file : Option String → Entry
  | dir : Entry
deriving DecidableEq

/-- A filesystem state: a partial map from paths to entries. -/
abbrev FS := Path → Option Entry

/-- Embedding of `str::trim`: removes leading and trailing whitespace
characters. -/
def strTrim (s : String) : String :=
  ⟨((s.data.dropWhile Char.isWhitespace).reverse.dropWhile Char.isWhitespace).reverse⟩

/-- Embedding of `str::starts_with` for a string pattern. -/
def strStartsWith (s pre : String) : Bool :=
  pre.data.isPrefixOf s.data

/-- Splitting of a character list at newline characters, keeping empty
pieces (the semantics of splitting text into lines on `\n`). -/
def splitCharsOn : List Char → List (List Char)
  | [] => [[]]
  | c :: rest =>
      match splitCharsOn rest with
      | [] => [[c]]
      | x :: xs => if c = '\n' then [] :: x :: xs else (c :: x) :: xs

/-- The lines of a text, split at `\n`, trailing empty piece kept. -/
def linesOf (s : String) : List String :=
  (splitCharsOn s.data).map (fun l => ⟨l⟩)

/-- The bare-marker probe of `cs01_path` (src/modules/files.rs lines
39-47): a regular file named `config` whose content reads successfully
and, after trimming, starts with `[core]`.  A failing read (the
`Entry.file none` case) counts as no match, exactly as the `if let
Ok(content)` in the source falls through. -/
def bareMarker (fs : FS) (d : Path) : Bool :=
  match fs (d ++ ["config"]) with
  | some (.file (some content)) => strStartsWith (strTrim content) "[core]"
  | _ => false

/-- The metadata-folder probe of `cs01_path` (src/modules/files.rs
lines 49-52): a directory named `.CS01`. -/
def hasCS01Dir (fs : FS) (d : Path) : Bool :=
  match fs (d ++ [".CS01"]) with
  | some .dir => true
  | _ => false

/-- The ascending loop of `cs01_path` (src/modules/files.rs lines
35-58), carried on the reversed path so that popping to the parent
directory is structural recursion: at each level the bare marker is
probed first, then the metadata folder, and on a match the level is
returned at once; otherwise the loop pops, stopping after the root
(the empty path) has been examined. -/
def cs01_go (fs : FS) : Path → Option Path
  | [] =>
      if bareMarker fs [] then some []
      else if hasCS01Dir fs [] then some []
      else none
  | x :: rest =>
      if bareMarker fs (x :: rest).reverse then some (x :: rest).reverse
      else if hasCS01Dir fs (x :: rest).reverse then some (x :: rest).reverse
      else cs01_go fs rest

/-- Embedding of `cs01_path` (src/modules/files.rs lines 25-62) with
`relative_path = None`, the only way the rest of the code calls it: in
that case the function returns the directory in which it found the
repository marker. -/
def cs01_path (fs : FS) (d : Path) : Option Path :=
  cs01_go fs d.reverse

/-- Embedding of `in_repo` (src/modules/files.rs lines 16-18). -/
def in_repo (fs : FS) (d : Path) : Bool :=
  (cs01_path fs d).isSome

/-- Embedding of `WriteOptions` (src/modules/files.rs lines 65-69). -/
structure WriteOptions where
  dir_perms : Nat
  overwrite : Bool
  dry_run : Bool

/-- The `Default` instance of `WriteOptions` (src/modules/files.rs
lines 71-79). -/
def defaultWriteOptions : WriteOptions :=
  { dir_perms := 0o755, overwrite := true, dry_run := false }

/-- The options `init` writes with (src/commands/init.rs lines
197-201). -/
def initWriteOptions : WriteOptions :=
  { dir_perms := 0o755, overwrite := false, dry_run := false }

/-- Embedding of `TreeNode` (src/modules/files.rs lines 9-12); the
children of a directory are an association list with unique keys. -/
inductive TreeNode where
  | File : String → TreeNode
  | Directory : List (String × TreeNode) → TreeNode

/-- The failure condition of `fs::create_dir_all`: some ancestor of
the path (or the path itself) exists as a regular file. -/
def ancestorFileBlock (fs : FS) (p : Path) : Bool :=
  p.inits.any (fun q => match fs q with | some (.file _) => true | _ => false)

/-- Embedding of `fs::create_dir_all`: every missing ancestor of the
path, and the path itself, becomes a directory; the call fails when
some ancestor (or the path) exists as a regular file. -/
def mkdirAll (fs : FS) (p : Path) : Except String FS :=
  if ancestorFileBlock fs p then
    .error "Failed to create dir"
  else
    .ok (fun q => if decide (q <+: p) && (fs q).isNone then some .dir else fs q)

/-- Embedding of `fs::write`: replaces the entry at the path with a
file holding the full content; fails when the path is an existing
directory. -/
def fsWrite (fs : FS) (p : Path) (content : String) : Except String FS :=
  match fs p with
  | some .dir => .error "Failed to write"
  | _ => .ok (fun q => if q = p then some (.file (some content)) else fs q)

mutual

/-- Embedding of `write_files_from_tree` (src/modules/files.rs lines
83-129).  A `File` node is skipped when `overwrite` is off and the
path exists as anything; otherwise, outside a dry run, the parent
directories are created and the content written.  A `Directory` node
is created when missing (outside a dry run) and its children are then
processed in order at the joined paths. -/
def write_files_from_tree (t : TreeNode) (p : Path) (o : WriteOptions) (fs : FS) :
    Except String FS :=
  match t with
  | .File content =>
      if !o.overwrite && (fs p).isSome then .ok fs
      else if o.dry_run then .ok fs
      else
        match (if p.isEmpty then Except.ok fs else mkdirAll fs p.dropLast) with
        | .error e => .error e
        | .ok fs1 => fsWrite fs1 p content
  | .Directory cs =>
      match (if (fs p).isNone then (if o.dry_run then Except.ok fs else mkdirAll fs p)
             else Except.ok fs) with
      | .error e => .error e
      | .ok fs1 => writeChildren cs p o fs1

/-- The recursive traversal of a directory's children performed by the
`for (name, node) in children` loop of `write_files_from_tree`. -/
def writeChildren (cs : List (String × TreeNode)) (p : Path) (o : WriteOptions) (fs : FS) :
    Except String FS :=
  match cs with
  | [] => .ok fs
  | (n, t) :: rest =>
      match write_files_from_tree t (p ++ [n]) o fs with
      | .error e => .error e
      | .ok fs2 => writeChildren rest p o fs2

end

/-- Lookup of the node sitting at a relative path inside an in-memory
tree. -/
def TreeNode.find : Path → TreeNode → Option TreeNode
  | [], t => some t
  | _ :: _, .File _ => none
  | n :: rest, .Directory cs =>
      match List.lookup n cs with
      | some t => TreeNode.find rest t
      | none => none

/-- Uniqueness of the child names of one directory level (the HashMap
key invariant of the source). -/
def keysNodupB : List (String × TreeNode) → Bool
  | [] => true
  | (n, _) :: rest => !(rest.any (fun c => c.1 == n)) && keysNodupB rest

mutual

/-- Well-formedness of a tree: every directory level has pairwise
distinct child names. -/
def TreeNode.wf : TreeNode → Bool
  | .File _ => true
  | .Directory cs => keysNodupB cs && TreeNode.wfChildren cs

/-- Well-formedness of every tree in a children list. -/
def TreeNode.wfChildren : List (String × TreeNode) → Bool
  | [] => true
  | (_, t) :: rest => TreeNode.wf t && TreeNode.wfChildren rest

end

/-- The on-disk entry corresponding to a tree node. -/
def entryOfNode : TreeNode → Entry
  | .File c => .file (some c)
  | .Directory _ => .dir

/-- The filesystem obtained by materializing a tree at a path on top
of an existing state: below the path the tree dictates the entries,
elsewhere the old state persists. -/
def overlayFS (fs : FS) (p : Path) (t : TreeNode) : FS :=
  fun q =>
    if p <+: q then
      match t.find (q.drop p.length) with
      | some node => some (entryOfNode node)
      | none => fs q
    else fs q

/-- The fixed internal config shape of `build_repo_tree`
(src/modules/repo_structure.rs lines 16-25) and of `init`
(src/commands/init.rs lines 102-111), fields in the insertion order of
the `json!` literal. -/
def repoConfigJson (bare : Bool) : Value :=
  .obj [("core", .obj [("", .obj [
    ("bare", .bool bare),
    ("repositoryformatversion", .num 0),
    ("filemode", .bool true),
    ("logallrefupdates", .bool true)])])]

/-- The fourteen sample hook names (src/modules/repo_structure.rs
lines 47-62). -/
def sampleHooks : List String :=
  ["applypatch-msg.sample", "commit-msg.sample", "fsmonitor-watchman.sample",
   "post-update.sample", "pre-applypatch.sample", "pre-commit.sample",
   "pre-merge-commit.sample", "prepare-commit-msg.sample", "pre-push.sample",
   "pre-rebase.sample", "pre-receive.sample", "push-to-checkout.sample",
   "sendemail-validate.sample", "update.sample"]

/-- The `description` placeholder (src/modules/repo_structure.rs lines
38-44). -/
def descriptionContent : String :=
  "Unnamed repository; edit this file \x27description\x27 to name the repository.\n"

/-- The `info/exclude` boilerplate (src/modules/repo_structure.rs
lines 68-74). -/
def excludeContent : String :=
  "# cs01 ls-files --others --exclude-from=.cs01/info/exclude\n# Lines that start with \x27#\x27 are comments.\n# For a project mostly in C, the following would be a good set of\n# exclude patterns (uncomment them if you want to use them):\n# *.[oa]\n# *~\n"

/-- The internal metadata entries shared by the bare and standard
layouts, in the insertion order of the source
(src/modules/repo_structure.rs lines 29-89). -/
def repoInternal (config_content : String) (initial_branch : String) :
    List (String × TreeNode) :=
  [("HEAD", .File ("ref: refs/heads/" ++ initial_branch ++ "\n")),
   ("config", .File config_content),
   ("description", .File descriptionContent),
   ("hooks", .Directory (sampleHooks.map (fun h => (h, TreeNode.File "")))),
   ("info", .Directory [("exclude", .File excludeContent)]),
   ("objects", .Directory [("info", .Directory []), ("pack", .Directory [])]),
   ("refs", .Directory
      [("heads", .Directory [(initial_branch, .File ("ref: refs/heads/" ++ initial_branch))]),
       ("tags", .Directory [])])]

/-- Embedding of `build_repo_tree` (src/modules/repo_structure.rs
lines 13-98): the fixed layout, rooted directly when `bare` and nested
under `.CS01` otherwise.  `init` (src/commands/init.rs lines 97-195)
constructs the identical structure inline; the embedding shares this
definition. -/
def build_repo_tree (bare : Bool) (initial_branch : String) : Except String TreeNode :=
  match obj_to_str (repoConfigJson bare) with
  | .error e => .error e
  | .ok config_content =>
      if bare then .ok (.Directory (repoInternal config_content initial_branch))
      else .ok (.Directory [(".CS01", .Directory (repoInternal config_content initial_branch))])

/-- The error taxonomy of `init`. -/
inductive InitError where
  | nested : Path → InitError
  | invalidConfig : String → InitError
  | io : String → InitError
deriving DecidableEq

/-- The re-initialization test of `init` (src/commands/init.rs lines
35-41): for a bare target, `HEAD` or `objects` exists at the target;
for a standard target, the `.CS01` directory entry exists. -/
def isReinitCheck (bare : Bool) (P : Path) (fs : FS) : Bool :=
  if bare then (fs (P ++ ["HEAD"])).isSome || (fs (P ++ ["objects"])).isSome
  else (fs (P ++ [".CS01"])).isSome

/-- Embedding of `init` (src/commands/init.rs lines 14-240).  Paths
are taken already canonical, so `canonicalize` is the identity here.
The result pairs the command outcome with the filesystem as left
behind: the target directory is created, when missing, before the
nested-repository check, exactly as lines 22-25 of the source run
before lines 43-95.  On a write failure the partially materialized
intermediate state is not tracked (no claim concerns it). -/
def init (bare : Bool) (initial_branch : String) (P : Path) (fs : FS) :
    Except InitError Unit × FS :=
  match (if (fs P).isNone then mkdirAll fs P else Except.ok fs) with
  | .error e => (.error (.io e), fs)
  | .ok fs1 =>
      let nestedErr : Option Path :=
        if isReinitCheck bare P fs1 then none
        else
          match cs01_path fs1 P with
          | some existing_root => if existing_root = P then none else some existing_root
          | none => none
      match nestedErr with
      | some r => (.error (.nested r), fs1)
      | none =>
          match build_repo_tree bare initial_branch with
          | .error e => (.error (.invalidConfig e), fs1)
          | .ok tree =>
              match write_files_from_tree tree P initWriteOptions fs1 with
              | .error e => (.error (.io e), fs1)
              | .ok fs2 => (.ok (), fs2)

/-- Absence of any repository root strictly between an ancestor
directory and a descendant start directory: every directory reached by
extending the ancestor with a non-empty piece of the descent matches
neither probe. -/
def noCloserRoot (fs : FS) (anc : Path) (suffix : List String) : Bool :=
  suffix.inits.all (fun pre =>
    pre.isEmpty || (!bareMarker fs (anc ++ pre) && !hasCS01Dir fs (anc ++ pre)))

/-- The entry at a query path after a write: `none` when the write
fails, `some` of the entry found at the query when it succeeds. -/
def writeResultAt (t : TreeNode) (p : Path) (o : WriteOptions) (fs : FS) (q : Path) :
    Option (Option Entry) :=
  match write_files_from_tree t p o fs with
  | .ok fs2 => some (fs2 q)
  | .error _ => none

/-- Concatenation of a list of text pieces in order. -/
def joinedText : List String → String
  | [] => ""
  | x :: xs => x ++ joinedText xs

/-- Output assembled in container order, written from the spec
(section 4.4): concatenation over sections in order, and inside each
section over subsections in order, of the header followed by the
settings lines. -/
def orderedOutputJ (sections : List (String × Value)) : String :=
  joinedText (sections.map (fun kv =>
    match kv.2 with
    | .obj subs =>
        joinedText (subs.map (fun skv =>
          match skv.2 with
          | .obj settings =>
              (if skv.1.isEmpty then "[" ++ kv.1 ++ "]\n"
               else "[" ++ kv.1 ++ " \"" ++ skv.1 ++ "\"]\n") ++ settingsLines settings
          | _ => ""))
    | _ => ""))

/-- Fixture: an empty target, just the root directory. -/
def fsEmptyRoot : FS := fun q => if q = [] then some Entry.dir else none

/-- Fixture: a standard repository at the root (`.CS01` directly under
the root directory) and nothing else. -/
def fsOuterRepo : FS := fun q =>
  if q = [] then some Entry.dir else if q = [".CS01"] then some Entry.dir else none

/-- Fixture: a standard repository at the root plus an existing,
unrelated, empty subdirectory `sub`. -/
def fsOuterRepoSub : FS := fun q =>
  if q = [] then some Entry.dir
  else if q = [".CS01"] then some Entry.dir
  else if q = ["sub"] then some Entry.dir else none

/-- Fixture: a bare repository marker at the root, a readable `config`
starting with `[core]`. -/
def fsBareRoot : FS := fun q =>
  if q = [] then some Entry.dir
  else if q = ["config"] then some (Entry.file (some "[core]\n")) else none

/-- Fixture: `.CS01` at the root and an unreadable `config` probe in
the subdirectory `a`. -/
def fsUnreadableConfig : FS := fun q =>
  if q = [] then some Entry.dir
  else if q = [".CS01"] then some Entry.dir
  else if q = ["a"] then some Entry.dir
  else if q = ["a", "config"] then some (Entry.file none) else none

/-- Fixture: a repository at `r`, the scan starting two levels below
it. -/
def fsDeepRepo : FS := fun q =>
  if q = [] then some Entry.dir
  else if q = ["r"] then some Entry.dir
  else if q = ["r", ".CS01"] then some Entry.dir
  else if q = ["r", "a"] then some Entry.dir
  else if q = ["r", "a", "b"] then some Entry.dir else none

/-- Fixture: repair-mode options with a dry run, used to exercise the
writer's dry-run branch. -/
def dryNoOverwrite : WriteOptions :=
  { dir_perms := 0o755, overwrite := false, dry_run := true }

/-- Fixture: a two-section configuration whose insertion order is not
alphabetical, exercising order preservation. -/
def twoSectionConfig : List (String × Value) :=
  [("zeta", .obj [("", .obj [("k", .bool true)])]),
   ("alpha", .obj [("sub", .obj [("n", .num 3)])])]

/-- Compatibility of the pre-existing entry at the write root with a
node: a file target must not exist yet, a directory target may already
exist as a directory. -/
def rootCompat : TreeNode → FS → Path → Prop
  | .File _, fs, p => fs p = none
  | .Directory _, fs, p => fs p = none ∨ fs p = some Entry.dir

/-- The config text produced for a standard repository (the
serialization of `repoConfigJson false`). -/
def stdConfigContent : String :=
  "[core]\n  bare = false\n  repositoryformatversion = 0\n  filemode = true\n  logallrefupdates = true\n"

/-- The config text produced for a bare repository (the serialization
of `repoConfigJson true`). -/
def bareConfigContent : String :=
  "[core]\n  bare = true\n  repositoryformatversion = 0\n  filemode = true\n  logallrefupdates = true\n"

/-- Fixture: a root directory holding one regular file `f` with
content `old`. -/
def fsFileF : FS := fun q =>
  if q = [] then some Entry.dir
  else if q = ["f"] then some (Entry.file (some "old")) else none

/-! ## Serializer lemmas -/

theorem all_congr_local {α : Type} (l : List α) (f g : α → Bool)
    (h : ∀ x ∈ l, f x = g x) : l.all f = l.all g := by
  induction l with
  | nil => rfl
  | cons x xs ih =>
      simp only [List.all_cons, h x (by simp)]
      rw [ih (fun y hy => h y (by simp [hy]))]

theorem exceptIsOk_ok (t : String) : (Except.ok t : Except String String).isOk = true := rfl

theorem exceptIsOk_error (e : String) : (Except.error e : Except String String).isOk = false := rfl

theorem concatManyE_isOk {α : Type} (f : α → Except String String) :
    ∀ (l : List α) (acc : String),
      (concatManyE f l acc).isOk = l.all (fun x => (f x).isOk) := by
  intro l
  induction l with
  | nil => intro acc; rfl
  | cons x xs ih =>
      intro acc
      simp only [concatManyE, List.all_cons]
      cases hfx : f x with
      | error e => simp [exceptIsOk_error]
      | ok t => simp only [ih, exceptIsOk_ok, Bool.true_and]

theorem concatManyE_ok {α : Type} (f : α → Except String String) (g : α → String) :
    ∀ (l : List α) (acc : String), (∀ x ∈ l, f x = .ok (g x)) →
      concatManyE f l acc = .ok (acc ++ joinedText (l.map g)) := by
  intro l
  induction l with
  | nil =>
      intro acc _
      simp only [concatManyE, List.map_nil, joinedText, String.append_empty]
  | cons x xs ih =>
      intro acc h
      simp only [concatManyE, h x (by simp)]
      rw [ih (acc ++ g x) (fun y hy => h y (by simp [hy]))]
      simp only [List.map_cons, joinedText, String.append_assoc]

theorem subsectionText_isOk (a b : String) (v : Value) :
    (subsectionText a b v).isOk = v.isObj := by
  cases v <;> rfl

theorem sectionText_isOk (n : String) (v : Value) :
    (sectionText n v).isOk =
      (match v with
       | .obj subs => subs.all (fun skv => skv.2.isObj)
       | _ => false) := by
  cases v with
  | obj subs =>
      simp only [sectionText, concatManyE_isOk]
      exact all_congr_local subs _ _ (fun x _ => subsectionText_isOk n x.1 x.2)
  | null => rfl
  | bool b => rfl
  | num i => rfl
  | str s => rfl
  | arr xs => rfl

/-- C7: the serializer succeeds exactly on the spec's validity
condition.  Stated as equality of the success Boolean with the
validity predicate written from the spec. -/
theorem obj_to_str_isOk_iff_spec_valid (v : Value) :
    (obj_to_str v).isOk = spec_valid_config v := by
  cases v with
  | obj sections =>
      by_cases hemp : sections.isEmpty
      · simp [obj_to_str, spec_valid_config, hemp, exceptIsOk_error]
      · simp only [Bool.not_eq_true] at hemp
        simp only [obj_to_str, spec_valid_config, hemp, Bool.false_eq_true, if_false,
          Bool.not_false, Bool.true_and, concatManyE_isOk]
        exact all_congr_local sections _ _ (fun x _ => sectionText_isOk x.1 x.2)
  | null => rfl
  | bool b => rfl
  | num i => rfl
  | str s => rfl
  | arr xs => rfl

/-- C4: on every valid configuration the serializer emits, section by
section in container order and subsection by subsection in container
order, the header followed by the settings lines — the output is the
in-order concatenation of those blocks. -/
theorem obj_to_str_ordered (sections : List (String × Value))
    (hv : spec_valid_config (.obj sections) = true) :
    obj_to_str (.obj sections) = .ok (orderedOutputJ sections) := by
  simp only [spec_valid_config, Bool.and_eq_true, Bool.not_eq_true', List.all_eq_true] at hv
  obtain ⟨hne, hall⟩ := hv
  simp only [obj_to_str, hne, Bool.false_eq_true, if_false]
  rw [concatManyE_ok _
    (fun kv =>
      match kv.2 with
      | .obj subs =>
          joinedText (subs.map (fun skv =>
            match skv.2 with
            | .obj settings =>
                (if skv.1.isEmpty then "[" ++ kv.1 ++ "]\n"
                 else "[" ++ kv.1 ++ " \"" ++ skv.1 ++ "\"]\n") ++ settingsLines settings
            | _ => ""))
      | _ => "") sections ""]
  · simp only [orderedOutputJ, String.empty_append]
  · intro kv hkv
    have hsec := hall kv hkv
    cases hkv2 : kv.2 with
    | obj subs =>
        rw [hkv2] at hsec
        simp only [List.all_eq_true] at hsec
        simp only [sectionText]
        rw [concatManyE_ok _
          (fun skv =>
            match skv.2 with
            | .obj settings =>
                (if skv.1.isEmpty then "[" ++ kv.1 ++ "]\n"
                 else "[" ++ kv.1 ++ " \"" ++ skv.1 ++ "\"]\n") ++ settingsLines settings
            | _ => "") subs ""]
        · simp only [String.empty_append]
        · intro skv hskv
          have hobj := hsec skv hskv
          cases hskv2 : skv.2 with
          | obj settings => simp [subsectionText]
          | null => rw [hskv2] at hobj; simp [Value.isObj] at hobj
          | bool b => rw [hskv2] at hobj; simp [Value.isObj] at hobj
          | num i => rw [hskv2] at hobj; simp [Value.isObj] at hobj
          | str s => rw [hskv2] at hobj; simp [Value.isObj] at hobj
          | arr xs => rw [hskv2] at hobj; simp [Value.isObj] at hobj
    | null => rw [hkv2] at hsec; simp at hsec
    | bool b => rw [hkv2] at hsec; simp at hsec
    | num i => rw [hkv2] at hsec; simp at hsec
    | str s => rw [hkv2] at hsec; simp at hsec
    | arr xs => rw [hkv2] at hsec; simp at hsec

/-- Witness for C4 at a concrete two-section configuration whose
insertion order is not alphabetical. -/
theorem obj_to_str_ordered_witness :
    obj_to_str (.obj twoSectionConfig) = .ok (orderedOutputJ twoSectionConfig) :=
  obj_to_str_ordered twoSectionConfig (by decide)

/-- C8: serializing the single-section configuration with an empty
subsection name and the boolean setting `bare = false` yields exactly
the line `[core]` followed by the line `  bare = false`, and no other
bracketed header. -/
theorem obj_to_str_core_bare_false :
    obj_to_str (.obj [("core", .obj [("", .obj [("bare", .bool false)])])]) =
        .ok "[core]\n  bare = false\n" ∧
      linesOf "[core]\n  bare = false\n" = ["[core]", "  bare = false", ""] ∧
      (linesOf "[core]\n  bare = false\n").filter
          (fun l => strStartsWith l "[") = ["[core]"] := by
  refine ⟨rfl, by decide, by decide⟩

/-! ## Locator lemmas -/

/-- One step of the ascending scan: the loop body of `cs01_path`. -/
theorem cs01_path_step (fs : FS) (d : Path) :
    cs01_path fs d =
      if bareMarker fs d then some d
      else if hasCS01Dir fs d then some d
      else if d = [] then none
      else cs01_path fs d.dropLast := by
  induction d using List.reverseRecOn with
  | nil => simp [cs01_path, cs01_go]
  | append_singleton l a _ =>
      have hrev : (a :: l.reverse).reverse = l ++ [a] := by simp
      have hne : ¬(l ++ [a] = []) := by simp
      show cs01_go fs (l ++ [a]).reverse = _
      rw [show (l ++ [a]).reverse = a :: l.reverse by simp]
      simp only [cs01_go, hrev, hne, if_false, List.dropLast_concat]
      rfl

/-- Unpacking of the `noCloserRoot` side condition into its pointwise
meaning. -/
theorem noCloserRoot_spec (fs : FS) (anc : Path) (s : List String)
    (h : noCloserRoot fs anc s = true) :
    ∀ pre, pre <+: s → pre ≠ [] →
      bareMarker fs (anc ++ pre) = false ∧ hasCS01Dir fs (anc ++ pre) = false := by
  intro pre hp hne
  simp only [noCloserRoot, List.all_eq_true] at h
  have hm : pre ∈ s.inits := (List.mem_inits pre s).mpr hp
  have hx := h pre hm
  have hempty : pre.isEmpty = false := by
    cases pre with
    | nil => exact absurd rfl hne
    | cons c cs => rfl
  rw [hempty] at hx
  simp only [Bool.false_or, Bool.and_eq_true, Bool.not_eq_true'] at hx
  exact hx

/-- The ascending scan started below an ancestor that holds the
metadata folder reaches that ancestor when no level in between matches
either probe. -/
theorem cs01_path_deep_aux (fs : FS) (anc : Path) :
    ∀ suffix : List String, hasCS01Dir fs anc = true →
      (∀ pre, pre <+: suffix → pre ≠ [] →
        bareMarker fs (anc ++ pre) = false ∧ hasCS01Dir fs (anc ++ pre) = false) →
      cs01_path fs (anc ++ suffix) = some anc := by
  intro suffix
  induction suffix using List.reverseRecOn with
  | nil =>
      intro hroot _
      rw [List.append_nil, cs01_path_step]
      by_cases hb : bareMarker fs anc <;> simp [hb, hroot]
  | append_singleton l a ih =>
      intro hroot hno
      have hfull := hno (l ++ [a]) List.prefix_rfl (by simp)
      have hassoc : anc ++ (l ++ [a]) = (anc ++ l) ++ [a] := by
        rw [List.append_assoc]
      rw [hassoc, cs01_path_step]
      have hne : ¬((anc ++ l) ++ [a] = []) := by simp
      rw [← hassoc]
      simp only [hfull.1, hfull.2, if_false, Bool.false_eq_true]
      rw [hassoc]
      simp only [hne, if_false, List.dropLast_concat]
      exact ih hroot (fun pre hp hpn => hno pre (hp.trans (List.prefix_append l [a])) hpn)

/-- C6: at each directory level the checks run in a fixed order — the
bare-marker probe decides first, then the metadata-folder probe — and
a match returns that level immediately; when both fail the scan pops
to the parent, and an unreadable `config` probe (a read error) counts
as a failed probe, the scan continuing upward instead of failing. -/
theorem cs01_path_check_order (fs : FS) (d : Path) :
    (bareMarker fs d = true → cs01_path fs d = some d) ∧
    (bareMarker fs d = false → hasCS01Dir fs d = true → cs01_path fs d = some d) ∧
    (bareMarker fs d = false → hasCS01Dir fs d = false → d ≠ [] →
      cs01_path fs d = cs01_path fs d.dropLast) ∧
    (fs (d ++ ["config"]) = some (Entry.file none) → hasCS01Dir fs d = false → d ≠ [] →
      cs01_path fs d = cs01_path fs d.dropLast) := by
  refine ⟨?_, ?_, ?_, ?_⟩
  · intro h1
    rw [cs01_path_step, h1]
    rfl
  · intro h1 h2
    rw [cs01_path_step, h1, h2]
    rfl
  · intro h1 h2 h3
    rw [cs01_path_step, h1, h2]
    simp [h3]
  · intro h1 h2 h3
    have hb : bareMarker fs d = false := by
      simp [bareMarker, h1]
    rw [cs01_path_step, hb, h2]
    simp [h3]

/-- Witness for C6: each of the four behaviors at a concrete
filesystem — a bare marker at the root, a metadata folder at the root,
a plain subdirectory that ascends, and an unreadable config probe that
ascends. -/
theorem cs01_path_check_order_witness :
    cs01_path fsBareRoot [] = some [] ∧
    cs01_path fsOuterRepo [] = some [] ∧
    cs01_path fsOuterRepoSub ["sub"] = cs01_path fsOuterRepoSub [] ∧
    cs01_path fsUnreadableConfig ["a"] = cs01_path fsUnreadableConfig [] :=
  ⟨(cs01_path_check_order fsBareRoot []).1 (by decide),
   (cs01_path_check_order fsOuterRepo []).2.1 (by decide) (by decide),
   (cs01_path_check_order fsOuterRepoSub ["sub"]).2.2.1 (by decide) (by decide)
     (by decide),
   (cs01_path_check_order fsUnreadableConfig ["a"]).2.2.2 (by decide) (by decide)
     (by decide)⟩

/-- C9: from any directory nested arbitrarily deep under an ancestor
holding the metadata folder, with no repository root strictly in
between, the scan returns that ancestor, independent of the nesting
depth. -/
theorem cs01_path_finds_ancestor (fs : FS) (anc : Path) (suffix : List String)
    (hroot : hasCS01Dir fs anc = true)
    (hno : noCloserRoot fs anc suffix = true) :
    cs01_path fs (anc ++ suffix) = some anc :=
  cs01_path_deep_aux fs anc suffix hroot (noCloserRoot_spec fs anc suffix hno)

/-- Witness for C9 at a repository two levels above the start. -/
theorem cs01_path_finds_ancestor_witness :
    cs01_path fsDeepRepo (["r"] ++ ["a", "b"]) = some ["r"] :=
  cs01_path_finds_ancestor fsDeepRepo ["r"] ["a", "b"] (by decide) (by decide)

/-! ## Path and writer lemmas -/

theorem not_concat_self_pre (p : Path) (n : String) : ¬(p ++ [n] <+: p) := by
  intro h
  have := h.length_le
  simp at this

theorem not_self_pre_dropLast (p : Path) (hp : p ≠ []) : ¬(p <+: p.dropLast) := by
  intro h
  have hlen := h.length_le
  have hlt : p.dropLast.length < p.length := by
    cases p with
    | nil => exact absurd rfl hp
    | cons x xs => simp [List.length_dropLast]
  omega

theorem concat_pre_head (p : Path) (n m : String) (tail : Path)
    (h : p ++ [n] <+: p ++ m :: tail) : n = m := by
  have := (List.prefix_append_right_inj p).mp h
  rw [List.cons_prefix_cons] at this
  exact this.1

theorem exists_decomp (p q : Path) (h : p <+: q) (hne : q ≠ p) :
    ∃ m tail, q = p ++ m :: tail := by
  obtain ⟨r, rfl⟩ := h
  cases r with
  | nil => exact absurd (List.append_nil p) hne
  | cons m tail => exact ⟨m, tail, rfl⟩

theorem lookup_none_of_no_key (n : String) :
    ∀ rest : List (String × TreeNode),
      rest.any (fun c => c.1 == n) = false → List.lookup n rest = none := by
  intro rest
  induction rest with
  | nil => intro _; rfl
  | cons hd tl ih =>
      intro h
      simp only [List.any_cons, Bool.or_eq_false_iff] at h
      obtain ⟨h1, h2⟩ := h
      obtain ⟨k, v⟩ := hd
      simp only [List.lookup]
      have hk : (k == n) = false := h1
      have hk2 : (n == k) = false := by
        rw [beq_eq_false_iff_ne] at hk ⊢
        exact fun he => hk he.symm
      rw [hk2]
      exact ih h2

theorem mkdirAll_noop (fs : FS) (p : Path)
    (h : ∀ q, q <+: p → fs q = some Entry.dir) : mkdirAll fs p = .ok fs := by
  have hblock : ancestorFileBlock fs p = false := by
    rw [ancestorFileBlock, List.any_eq_false]
    intro q hq
    rw [h q ((List.mem_inits q p).mp hq)]
    simp
  rw [mkdirAll, hblock]
  simp only [Bool.false_eq_true, if_false]
  refine congrArg Except.ok (funext fun q => ?_)
  by_cases hq : q <+: p
  · rw [h q hq]
    simp [hq]
  · simp [hq]

theorem mkdirAll_create (fs : FS) (p : Path)
    (hstrict : ∀ q, q <+: p → q ≠ p → fs q = some Entry.dir) (hp : fs p = none) :
    mkdirAll fs p = .ok (fun q => if q = p then some Entry.dir else fs q) := by
  have hblock : ancestorFileBlock fs p = false := by
    rw [ancestorFileBlock, List.any_eq_false]
    intro q hq
    have hq' := (List.mem_inits q p).mp hq
    by_cases he : q = p
    · rw [he, hp]; simp
    · rw [hstrict q hq' he]; simp
  rw [mkdirAll, hblock]
  simp only [Bool.false_eq_true, if_false]
  refine congrArg Except.ok (funext fun q => ?_)
  by_cases he : q = p
  · subst he
    simp [hp, List.prefix_rfl]
  · by_cases hq : q <+: p
    · rw [hstrict q hq he]
      simp [hq, he]
    · simp [hq, he]

theorem write_file_eq (content : String) (p : Path) (o : WriteOptions) (fs : FS) :
    write_files_from_tree (.File content) p o fs =
      if !o.overwrite && (fs p).isSome then .ok fs
      else if o.dry_run then .ok fs
      else
        match (if p.isEmpty then Except.ok fs else mkdirAll fs p.dropLast) with
        | .error e => .error e
        | .ok fs1 => fsWrite fs1 p content := by
  rw [write_files_from_tree]

theorem write_dir_eq (cs : List (String × TreeNode)) (p : Path) (o : WriteOptions) (fs : FS) :
    write_files_from_tree (.Directory cs) p o fs =
      match (if (fs p).isNone then (if o.dry_run then Except.ok fs else mkdirAll fs p)
             else Except.ok fs) with
      | .error e => .error e
      | .ok fs1 => writeChildren cs p o fs1 := by
  rw [write_files_from_tree]

theorem writeChildren_nil (p : Path) (o : WriteOptions) (fs : FS) :
    writeChildren [] p o fs = .ok fs := by
  rw [writeChildren]

theorem writeChildren_cons (n : String) (t : TreeNode) (rest : List (String × TreeNode))
    (p : Path) (o : WriteOptions) (fs : FS) :
    writeChildren ((n, t) :: rest) p o fs =
      match write_files_from_tree t (p ++ [n]) o fs with
      | .error e => .error e
      | .ok fs2 => writeChildren rest p o fs2 := by
  rw [writeChildren]

theorem tree_induction (P : TreeNode → Prop) (Q : List (String × TreeNode) → Prop)
    (hfile : ∀ s, P (.File s))
    (hdir : ∀ cs, Q cs → P (.Directory cs))
    (hnil : Q [])
    (hcons : ∀ n t rest, P t → Q rest → Q ((n, t) :: rest)) :
    (∀ t, P t) ∧ (∀ cs, Q cs) := by
  have key : ∀ N : Nat, (∀ t, sizeOf t ≤ N → P t) ∧ (∀ cs, sizeOf cs ≤ N → Q cs) := by
    intro N
    induction N with
    | zero =>
        constructor
        · intro t ht
          cases t with
          | File s => exact hfile s
          | Directory cs => simp at ht
        · intro cs hcs
          cases cs with
          | nil => exact hnil
          | cons hd tl => simp at hcs
    | succ N ih =>
        constructor
        · intro t ht
          cases t with
          | File s => exact hfile s
          | Directory cs =>
              refine hdir cs (ih.2 cs ?_)
              simp at ht
              omega
        · intro cs hcs
          cases cs with
          | nil => exact hnil
          | cons hd tl =>
              obtain ⟨n, t⟩ := hd
              simp at hcs
              refine hcons n t tl (ih.1 t ?_) (ih.2 tl ?_) <;> omega
  exact ⟨fun t => (key (sizeOf t)).1 t le_rfl, fun cs => (key (sizeOf cs)).2 cs le_rfl⟩

/-- A successful non-dry write of a well-formed tree into a region
that is empty strictly below the target materializes exactly the tree
there: node and children lemma proved together by tree induction. -/
theorem write_overlay_all :
    (∀ t : TreeNode, ∀ p o fs, o.dry_run = false → t.wf = true →
      (∀ q, q <+: p → q ≠ p → fs q = some Entry.dir) →
      rootCompat t fs p →
      (∀ q, p <+: q → q ≠ p → fs q = none) →
      write_files_from_tree t p o fs = .ok (overlayFS fs p t)) ∧
    (∀ cs : List (String × TreeNode), ∀ p o fs, o.dry_run = false →
      keysNodupB cs = true → TreeNode.wfChildren cs = true →
      (∀ q, q <+: p → fs q = some Entry.dir) →
      (∀ n t, (n, t) ∈ cs → ∀ q, (p ++ [n]) <+: q → fs q = none) →
      writeChildren cs p o fs = .ok (overlayFS fs p (.Directory cs))) := by
  refine tree_induction _ _ ?_ ?_ ?_ ?_
  · -- File node
    intro s p o fs hdry _hwf hanc hroot hbelow
    have hrootn : fs p = none := hroot
    rw [write_file_eq, hrootn]
    simp only [Option.isSome_none, Bool.and_false, Bool.false_eq_true, if_false, hdry]
    have hmk : (if p.isEmpty then Except.ok fs else mkdirAll fs p.dropLast) = Except.ok fs := by
      cases p with
      | nil => rfl
      | cons x xs =>
          simp only [List.isEmpty_cons, Bool.false_eq_true, if_false]
          apply mkdirAll_noop
          intro q hq
          refine hanc q (hq.trans (List.dropLast_prefix _)) ?_
          intro he
          subst he
          exact not_self_pre_dropLast _ (by simp) hq
    rw [hmk]
    simp only [fsWrite, hrootn]
    refine congrArg Except.ok (funext fun q => ?_)
    by_cases he : q = p
    · subst he
      simp [overlayFS, List.prefix_rfl, List.drop_length, TreeNode.find, entryOfNode]
    · rw [if_neg he]
      by_cases hpq : p <+: q
      · obtain ⟨m, tail, rfl⟩ := exists_decomp p q hpq he
        simp only [overlayFS, if_pos hpq, List.drop_left, TreeNode.find]
      · simp only [overlayFS, if_neg hpq]
  · -- Directory node
    intro cs hQ p o fs hdry hwf hanc hroot hbelow
    rw [TreeNode.wf, Bool.and_eq_true] at hwf
    obtain ⟨hk, hwc⟩ := hwf
    rw [write_dir_eq]
    rcases hroot with hn | hd
    · rw [hn]
      simp only [Option.isNone_none, if_true, hdry, Bool.false_eq_true, if_false]
      rw [mkdirAll_create fs p hanc hn]
      have hanc2 : ∀ q, q <+: p →
          (fun q => if q = p then some Entry.dir else fs q) q = some Entry.dir := by
        intro q hq
        by_cases he : q = p
        · simp [he]
        · simp only [if_neg he]
          exact hanc q hq he
      have hreg2 : ∀ n t, (n, t) ∈ cs → ∀ q, (p ++ [n]) <+: q →
          (fun q => if q = p then some Entry.dir else fs q) q = none := by
        intro n t _hmem q hq
        have hqp : p <+: q := (List.prefix_append p [n]).trans hq
        have hne : q ≠ p := by
          intro he
          rw [he] at hq
          exact not_concat_self_pre p n hq
        simp only [if_neg hne]
        exact hbelow q hqp hne
      show writeChildren cs p o (fun q => if q = p then some Entry.dir else fs q) =
        Except.ok (overlayFS fs p (TreeNode.Directory cs))
      rw [hQ p o _ hdry hk hwc hanc2 hreg2]
      refine congrArg Except.ok (funext fun q => ?_)
      simp only [overlayFS]
      by_cases hpq : p <+: q
      · rw [if_pos hpq, if_pos hpq]
        cases hf : TreeNode.find (q.drop p.length) (.Directory cs) with
        | some node => rfl
        | none =>
            have hne : q ≠ p := by
              intro he
              subst he
              rw [List.drop_length] at hf
              simp [TreeNode.find] at hf
            rw [if_neg hne]
      · rw [if_neg hpq, if_neg hpq]
        have hne : q ≠ p := fun he => hpq (he ▸ List.prefix_rfl)
        rw [if_neg hne]
    · rw [hd]
      simp only [Option.isNone_some, Bool.false_eq_true, if_false]
      have hanc2 : ∀ q, q <+: p → fs q = some Entry.dir := by
        intro q hq
        by_cases he : q = p
        · subst he; exact hd
        · exact hanc q hq he
      have hreg2 : ∀ n t, (n, t) ∈ cs → ∀ q, (p ++ [n]) <+: q → fs q = none := by
        intro n t _hmem q hq
        have hqp : p <+: q := (List.prefix_append p [n]).trans hq
        have hne : q ≠ p := by
          intro he
          rw [he] at hq
          exact not_concat_self_pre p n hq
        exact hbelow q hqp hne
      show writeChildren cs p o fs = Except.ok (overlayFS fs p (TreeNode.Directory cs))
      rw [hQ p o fs hdry hk hwc hanc2 hreg2]
  · -- children: nil
    intro p o fs _hdry _hk _hwc hanc _hreg
    rw [writeChildren_nil]
    refine congrArg Except.ok (funext fun q => ?_)
    by_cases hpq : p <+: q
    · by_cases he : q = p
      · rw [he, hanc p List.prefix_rfl]
        simp [overlayFS, List.prefix_rfl, List.drop_length, TreeNode.find, entryOfNode]
      · obtain ⟨m, tail, rfl⟩ := exists_decomp p _ hpq he
        simp only [overlayFS, if_pos hpq, List.drop_left, TreeNode.find, List.lookup]
    · simp only [overlayFS, if_neg hpq]
  · -- children: cons
    intro n t rest hP hQ p o fs hdry hk hwc hanc hreg
    rw [keysNodupB, Bool.and_eq_true] at hk
    obtain ⟨hkA, hkrest⟩ := hk
    rw [Bool.not_eq_true'] at hkA
    rw [TreeNode.wfChildren, Bool.and_eq_true] at hwc
    obtain ⟨hwt, hwrest⟩ := hwc
    rw [writeChildren_cons]
    have hanc1 : ∀ q, q <+: p ++ [n] → q ≠ p ++ [n] → fs q = some Entry.dir := by
      intro q hq hne
      rcases List.prefix_concat_iff.mp hq with he | hq'
      · exact absurd he hne
      · exact hanc q hq'
    have hnone : fs (p ++ [n]) = none :=
      hreg n t (List.mem_cons_self _ _) (p ++ [n]) List.prefix_rfl
    have hroot1 : rootCompat t fs (p ++ [n]) := by
      cases t with
      | File s => exact hnone
      | Directory cs2 => exact Or.inl hnone
    have hbelow1 : ∀ q, (p ++ [n]) <+: q → q ≠ p ++ [n] → fs q = none := by
      intro q hq _hne
      exact hreg n t (List.mem_cons_self _ _) q hq
    rw [hP (p ++ [n]) o fs hdry hwt hanc1 hroot1 hbelow1]
    have hanc2 : ∀ q, q <+: p → overlayFS fs (p ++ [n]) t q = some Entry.dir := by
      intro q hq
      have hnot : ¬(p ++ [n] <+: q) := by
        intro hcon
        have l1 := hcon.length_le
        have l2 := hq.length_le
        simp at l1
        omega
      simp only [overlayFS, if_neg hnot]
      exact hanc q hq
    have hreg2 : ∀ m u, (m, u) ∈ rest → ∀ q, (p ++ [m]) <+: q →
        overlayFS fs (p ++ [n]) t q = none := by
      intro m u hmem q hq
      have hb := List.any_eq_false.mp hkA (m, u) hmem
      have hne : m ≠ n := by
        intro he
        exact hb (by simp [he])
      have hnot : ¬(p ++ [n] <+: q) := by
        intro hcon
        obtain ⟨r, rfl⟩ := hq
        rw [show (p ++ [m]) ++ r = p ++ m :: r by simp] at hcon
        exact hne (concat_pre_head p n m r hcon).symm
      simp only [overlayFS, if_neg hnot]
      exact hreg m u (List.mem_cons_of_mem _ hmem) q hq
    show writeChildren rest p o (overlayFS fs (p ++ [n]) t) =
      Except.ok (overlayFS fs p (TreeNode.Directory ((n, t) :: rest)))
    rw [hQ p o (overlayFS fs (p ++ [n]) t) hdry hkrest hwrest hanc2 hreg2]
    refine congrArg Except.ok (funext fun q => ?_)
    by_cases hpq : p <+: q
    · by_cases he : q = p
      · rw [he]
        simp [overlayFS, List.prefix_rfl, List.drop_length, TreeNode.find, entryOfNode,
          not_concat_self_pre p n]
      · obtain ⟨m, tail, rfl⟩ := exists_decomp p _ hpq he
        have hd1 : (p ++ m :: tail).drop p.length = m :: tail := List.drop_left p (m :: tail)
        by_cases hmn : m = n
        · subst hmn
          have hq1 : p ++ [m] <+: p ++ m :: tail := ⟨tail, by simp⟩
          have hd2 : (p ++ m :: tail).drop (p ++ [m]).length = tail := by
            rw [show p ++ m :: tail = (p ++ [m]) ++ tail by simp]
            exact List.drop_left _ _
          have hlk : List.lookup m rest = none := lookup_none_of_no_key m rest hkA
          simp only [overlayFS, if_pos hpq, if_pos hq1, hd1, hd2, TreeNode.find,
            List.lookup, beq_self_eq_true, hlk]
        · have hb : (m == n) = false := by
            rw [beq_eq_false_iff_ne]
            exact hmn
          have hnot : ¬(p ++ [n] <+: p ++ m :: tail) := by
            intro hcon
            exact hmn (concat_pre_head p n m tail hcon).symm
          have hfs2 : overlayFS fs (p ++ [n]) t (p ++ m :: tail) = fs (p ++ m :: tail) := by
            simp only [overlayFS, if_neg hnot]
          simp only [overlayFS, if_pos hpq, hd1, TreeNode.find, List.lookup, hb]
          cases hl : List.lookup m rest with
          | some u =>
              cases hf : TreeNode.find tail u with
              | some node =>
                  simp [hl, hf]
                  try intro he2
                  try exact absurd he2.symm hmn
              | none =>
                  simp [hl, hf, hfs2]
                  try intro he2
                  try exact absurd he2.symm hmn
          | none =>
              simp [hl, hfs2]
              try intro he2
              try exact absurd he2.symm hmn
    · have hnot : ¬(p ++ [n] <+: q) := fun hcon => hpq ((List.prefix_append p [n]).trans hcon)
      simp only [overlayFS, if_neg hpq, if_neg hnot]

/-- Dry runs leave every node untouched: node and children lemma
proved together by tree induction. -/
theorem write_dry_aux :
    (∀ t : TreeNode, ∀ p o fs, o.dry_run = true →
      write_files_from_tree t p o fs = .ok fs) ∧
    (∀ cs : List (String × TreeNode), ∀ p o fs, o.dry_run = true →
      writeChildren cs p o fs = .ok fs) := by
  refine tree_induction _ _ ?_ ?_ ?_ ?_
  · intro s p o fs hdry
    rw [write_file_eq]
    cases hb : (!o.overwrite && (fs p).isSome) with
    | true => simp [hb]
    | false => simp [hb, hdry]
  · intro cs hQ p o fs hdry
    rw [write_dir_eq]
    cases hb : (fs p).isNone with
    | true =>
        simp only [hb, if_true, hdry]
        show writeChildren cs p o fs = .ok fs
        exact hQ p o fs hdry
    | false =>
        simp only [hb, Bool.false_eq_true, if_false]
        show writeChildren cs p o fs = .ok fs
        exact hQ p o fs hdry
  · intro p o fs _
    rw [writeChildren_nil]
  · intro n t rest hP hQ p o fs hdry
    rw [writeChildren_cons, hP (p ++ [n]) o fs hdry]
    show writeChildren rest p o fs = .ok fs
    exact hQ p o fs hdry

/-- C3: with `dry_run` set, a write call mutates nothing — it returns
success with the filesystem exactly as it was, for every tree, base
path, remaining options and pre-existing state. -/
theorem write_dry_run_no_mutation (t : TreeNode) (p : Path) (o : WriteOptions) (fs : FS)
    (hdry : o.dry_run = true) :
    write_files_from_tree t p o fs = .ok fs :=
  write_dry_aux.1 t p o fs hdry

/-- Witness for C3 at a concrete tree and filesystem. -/
theorem write_dry_run_no_mutation_witness :
    write_files_from_tree (.Directory [("f", .File "x")]) [] dryNoOverwrite fsEmptyRoot =
      .ok fsEmptyRoot :=
  write_dry_run_no_mutation _ _ _ _ rfl

/-- Counterexample to C8-adjacent claim C2 as stated: with
`overwrite = false` and `dry_run = true` (options quantified by the
claim), a `File` node at a non-existing path is NOT created — the
write returns success with the filesystem unchanged and nothing at the
path. -/
theorem write_repair_counterexample :
    dryNoOverwrite.overwrite = false ∧
    fsEmptyRoot ["f"] = none ∧
    writeResultAt (.File "hello") ["f"] dryNoOverwrite fsEmptyRoot ["f"] = some none ∧
    some (none : Option Entry) ≠ some (some (Entry.file (some "hello"))) := by
  refine ⟨rfl, rfl, ?_, by simp⟩
  rw [writeResultAt, write_dry_aux.1 _ _ _ _ rfl]
  rfl

/-- C2 as amended: with `overwrite = false`, a `File` node whose
target path already exists (as anything) is left fully untouched —
the writer returns with the filesystem unchanged, independent of the
desired content; and when additionally `dry_run = false`, the path
does not exist, and no ancestor of the path is an existing regular
file (so parent creation succeeds), the file is created with the full
desired content. -/
theorem write_file_repair (content : String) (p : Path) (o : WriteOptions) (fs : FS)
    (hov : o.overwrite = false) :
    ((fs p).isSome = true → write_files_from_tree (.File content) p o fs = .ok fs) ∧
    (fs p = none → o.dry_run = false → ancestorFileBlock fs p.dropLast = false →
      writeResultAt (.File content) p o fs p = some (some (Entry.file (some content)))) := by
  constructor
  · intro hsome
    rw [write_file_eq, hov, hsome]
    rfl
  · intro hnone hdry hblock
    rw [writeResultAt, write_file_eq, hnone, hdry]
    simp only [Option.isSome_none, Bool.and_false, Bool.false_eq_true, if_false]
    cases p with
    | nil =>
        simp only [List.isEmpty_nil, if_true]
        simp [fsWrite, hnone]
    | cons x xs =>
        simp only [List.isEmpty_cons, Bool.false_eq_true, if_false]
        rw [mkdirAll, hblock]
        simp only [Bool.false_eq_true, if_false]
        have hp1 : (fun q => if decide (q <+: (x :: xs).dropLast) && (fs q).isNone
            then some Entry.dir else fs q) (x :: xs) = none := by
          have hnp := not_self_pre_dropLast (x :: xs) (by simp)
          simp [hnp, hnone]
        simp only [fsWrite, hp1]
        simp

/-- Witness for C2 as amended: an existing file is left untouched, and
a missing file under a healthy parent is created with its content. -/
theorem write_file_repair_witness :
    write_files_from_tree (.File "new") ["f"] initWriteOptions fsFileF = .ok fsFileF ∧
    writeResultAt (.File "x") ["g"] initWriteOptions fsEmptyRoot ["g"] =
      some (some (Entry.file (some "x"))) :=
  ⟨(write_file_repair "new" ["f"] initWriteOptions fsFileF rfl).1 (by decide),
   (write_file_repair "x" ["g"] initWriteOptions fsEmptyRoot rfl).2 (by decide) rfl
     (by decide)⟩

/-! ## Builder and round-trip lemmas -/

theorem repoInternal_wf (cfg b : String) :
    TreeNode.wf (.Directory (repoInternal cfg b)) = true := by
  simp [repoInternal, TreeNode.wf, TreeNode.wfChildren, keysNodupB, sampleHooks]

theorem repoStd_wf (cfg b : String) :
    TreeNode.wf (.Directory [(".CS01", .Directory (repoInternal cfg b))]) = true := by
  have h := repoInternal_wf cfg b
  simp [TreeNode.wf, TreeNode.wfChildren, keysNodupB, h]

theorem find_singleton_key (b : String) (u : TreeNode) :
    TreeNode.find [b] (.Directory [(b, u)]) = some u := by
  simp [TreeNode.find, List.lookup]

/-- C5: the built tree holds `HEAD` with content
`ref: refs/heads/<b>\n` and `refs/heads/<b>` with content
`ref: refs/heads/<b>` (no trailing newline); with `bare = false` the
entries sit one level under `.CS01`, with `bare = true` the same set
of entries (identical names) sits at the root; and a full write of the
standard tree into an empty directory `D` places exactly that `HEAD`
content at `D/.CS01/HEAD`. -/
theorem build_repo_tree_layout (b : String) :
    (build_repo_tree true b = .ok (.Directory (repoInternal bareConfigContent b)) ∧
     build_repo_tree false b =
       .ok (.Directory [(".CS01", .Directory (repoInternal stdConfigContent b))]) ∧
     (repoInternal bareConfigContent b).map Prod.fst =
       (repoInternal stdConfigContent b).map Prod.fst) ∧
    (TreeNode.find [".CS01", "HEAD"]
        (.Directory [(".CS01", .Directory (repoInternal stdConfigContent b))]) =
       some (.File ("ref: refs/heads/" ++ b ++ "\n")) ∧
     TreeNode.find [".CS01", "refs", "heads", b]
        (.Directory [(".CS01", .Directory (repoInternal stdConfigContent b))]) =
       some (.File ("ref: refs/heads/" ++ b)) ∧
     TreeNode.find ["HEAD"] (.Directory (repoInternal bareConfigContent b)) =
       some (.File ("ref: refs/heads/" ++ b ++ "\n")) ∧
     TreeNode.find ["refs", "heads", b] (.Directory (repoInternal bareConfigContent b)) =
       some (.File ("ref: refs/heads/" ++ b))) ∧
    (∀ D fs, (∀ q, q <+: D → fs q = some Entry.dir) →
      (∀ q, D <+: q → q ≠ D → fs q = none) →
      writeResultAt (.Directory [(".CS01", .Directory (repoInternal stdConfigContent b))])
          D initWriteOptions fs (D ++ [".CS01", "HEAD"]) =
        some (some (Entry.file (some ("ref: refs/heads/" ++ b ++ "\n"))))) := by
  refine ⟨⟨rfl, rfl, rfl⟩, ⟨rfl, ?_, rfl, ?_⟩, ?_⟩
  · show TreeNode.find [b]
      (.Directory [(b, TreeNode.File ("ref: refs/heads/" ++ b))]) = _
    exact find_singleton_key b _
  · show TreeNode.find [b]
      (.Directory [(b, TreeNode.File ("ref: refs/heads/" ++ b))]) = _
    exact find_singleton_key b _
  · intro D fs h1 h2
    have hov := write_overlay_all.1
      (.Directory [(".CS01", .Directory (repoInternal stdConfigContent b))])
      D initWriteOptions fs rfl (repoStd_wf stdConfigContent b)
      (fun q hq _ => h1 q hq) (Or.inr (h1 D List.prefix_rfl)) h2
    rw [writeResultAt, hov]
    have hpre : D <+: D ++ [".CS01", "HEAD"] := List.prefix_append _ _
    have hdrop : (D ++ [".CS01", "HEAD"]).drop D.length = [".CS01", "HEAD"] :=
      List.drop_left _ _
    simp only [overlayFS, if_pos hpre, hdrop]
    rfl

/-- Witness for C5: writing the standard tree for branch `main` into
an empty root places the expected `HEAD` content. -/
theorem build_repo_tree_layout_witness :
    writeResultAt (.Directory [(".CS01", .Directory (repoInternal stdConfigContent "main"))])
        [] initWriteOptions fsEmptyRoot [".CS01", "HEAD"] =
      some (some (Entry.file (some "ref: refs/heads/main\n"))) := by
  have h := (build_repo_tree_layout "main").2.2 [] fsEmptyRoot
    (fun q hq => by rw [List.prefix_nil.mp hq]; rfl)
    (fun q _ hne => by simp [fsEmptyRoot, hne])
  exact h

/-- C10: the config content of the bare tree starts (after trimming)
with the `[core]` marker, and a full write of the bare tree into an
empty directory `D` makes `locate` recognize `D` itself as a bare
repository root through the bare-marker probe. -/
theorem bare_tree_marker_roundtrip (b : String) :
    (build_repo_tree true b = .ok (.Directory (repoInternal bareConfigContent b)) ∧
     TreeNode.find ["config"] (.Directory (repoInternal bareConfigContent b)) =
       some (.File bareConfigContent) ∧
     strStartsWith (strTrim bareConfigContent) "[core]" = true) ∧
    (∀ D fs, (∀ q, q <+: D → fs q = some Entry.dir) →
      (∀ q, D <+: q → q ≠ D → fs q = none) →
      write_files_from_tree (.Directory (repoInternal bareConfigContent b)) D
          initWriteOptions fs =
        .ok (overlayFS fs D (.Directory (repoInternal bareConfigContent b))) ∧
      bareMarker (overlayFS fs D (.Directory (repoInternal bareConfigContent b))) D = true ∧
      cs01_path (overlayFS fs D (.Directory (repoInternal bareConfigContent b))) D =
        some D) := by
  refine ⟨⟨rfl, rfl, by decide⟩, ?_⟩
  intro D fs h1 h2
  have hov := write_overlay_all.1 (.Directory (repoInternal bareConfigContent b))
    D initWriteOptions fs rfl (repoInternal_wf bareConfigContent b)
    (fun q hq _ => h1 q hq) (Or.inr (h1 D List.prefix_rfl)) h2
  have hpre : D <+: D ++ ["config"] := List.prefix_append _ _
  have hdrop : (D ++ ["config"]).drop D.length = ["config"] := List.drop_left _ _
  have hc : overlayFS fs D (.Directory (repoInternal bareConfigContent b))
      (D ++ ["config"]) = some (.file (some bareConfigContent)) := by
    simp only [overlayFS, if_pos hpre, hdrop]
    rfl
  have hbm : bareMarker (overlayFS fs D (.Directory (repoInternal bareConfigContent b)))
      D = true := by
    rw [bareMarker, hc]
    decide
  refine ⟨hov, hbm, ?_⟩
  rw [cs01_path_step, hbm]
  rfl

/-- Witness for C10 at branch `x` and an empty root. -/
theorem bare_tree_marker_roundtrip_witness :
    cs01_path (overlayFS fsEmptyRoot [] (.Directory (repoInternal bareConfigContent "x")))
        [] = some [] :=
  ((bare_tree_marker_roundtrip "x").2 [] fsEmptyRoot
    (fun q hq => by rw [List.prefix_nil.mp hq]; rfl)
    (fun q _ hne => by simp [fsEmptyRoot, hne])).2.2

/-! ## Init lemmas -/

/-- C1 as amended: when the target directory already exists, is not
detected as a repair, and the ascending scan finds a root different
from the target, `init` aborts with the nested-repository error and
the filesystem is returned exactly as it was — no path is created.
(When the target directory is missing, the code first creates it with
`create_dir_all` and only then runs this check; see the
counterexample.) -/
theorem init_nested_abort (bare : Bool) (branch : String) (P : Path) (fs : FS)
    (hreinit : isReinitCheck bare P fs = false)
    (hexists : (fs P).isSome = true)
    (r : Path) (hfound : cs01_path fs P = some r) (hne : r ≠ P) :
    init bare branch P fs = (.error (.nested r), fs) := by
  have hnn : (fs P).isNone = false := by
    cases h : fs P with
    | none => rw [h] at hexists; simp at hexists
    | some e => rfl
  simp [init, hnn, hreinit, hfound, hne]

/-- Counterexample to C1 as stated: with a repository at the root and
a missing target `sub2`, `init` aborts with the nested-repository
error, yet the aborted invocation has created the target directory
itself (it did not exist before). -/
theorem init_nested_abort_counterexample :
    (init false "main" ["sub2"] fsOuterRepo).1 = .error (.nested []) ∧
    (init false "main" ["sub2"] fsOuterRepo).2 ["sub2"] = some Entry.dir ∧
    fsOuterRepo ["sub2"] = none :=
  ⟨rfl, rfl, rfl⟩

/-- Witness for C1 as amended: an existing unrelated subdirectory of a
repository root; the abort leaves the filesystem untouched. -/
theorem init_nested_abort_witness :
    init false "main" ["sub"] fsOuterRepoSub = (.error (.nested []), fsOuterRepoSub) :=
  init_nested_abort false "main" ["sub"] fsOuterRepoSub (by decide) (by decide) []
    (by decide) (by decide)

end CS01
